import Mathlib

/-!
Verification of the query compiler, query assembler and write mapper of the
`feathers-influxdb` adapter (`src/adapter.ts` / `src/index.ts`).

The adapter is written in TypeScript.  We shallowly embed the relevant
JavaScript value universe and translate each source function into an
executable Lean definition.  Modelling conventions:

* JavaScript values reaching the adapter are modelled by `JVal`.  Numbers are
  modelled as integers (`Int`); decimal rendering of non-integral floats is
  outside the modelled domain.  A `Date` carries both its `toISOString()`
  rendering and its `String(...)` rendering as data.
* A JavaScript object is modelled as its ordered list of own enumerable
  entries (`List (String × JVal)`), which is what `Object.keys` iteration
  together with property access observes.
* Children of the `$and` / `$or` combinators are modelled as filter objects;
  the degenerate JavaScript coercions for non-object children (array index
  enumeration, string character enumeration, and the `TypeError` thrown by
  `Object.keys(null)`) are outside the modelled query domain.
-/

inductive JVal where
  | jstr (s : String)
  | jnum (n : Int)
  | jbool (b : Bool)
  | jdate (iso : String) (str : String)
  | jarr (vs : List JVal)
  | jobj (entries : List (String × JVal))
  | jnull
  | jundef

/-- JavaScript truthiness of a value (`if (v)`). -/
def jsTruthy : JVal → Bool
  | .jstr s => s != ""
  | .jnum n => n != 0
  | .jbool b => b
  | .jdate _ _ => true
  | .jarr _ => true
  | .jobj _ => true
  | .jnull => false
  | .jundef => false

mutual

/-- JavaScript `String(v)` coercion. -/
def jsString : JVal → String
  | .jstr s => s
  | .jnum n => toString n
  | .jbool b => if b then "true" else "false"
  | .jdate _ str => str
  | .jarr vs => String.intercalate "," (jsStringItems vs)
  | .jobj _ => "[object Object]"
  | .jnull => "null"
  | .jundef => "undefined"

/-- Item rendering used by `Array.prototype.toString` (null and undefined
items render as the empty string inside the comma join). -/
def jsStringItems : List JVal → List String
  | [] => []
  | .jnull :: rest => "" :: jsStringItems rest
  | .jundef :: rest => "" :: jsStringItems rest
  | v :: rest => jsString v :: jsStringItems rest

end

/-- Property lookup `obj[key]`; a missing key reads as `undefined`. -/
def jsLookup : List (String × JVal) → String → JVal
  | [], _ => .jundef
  | (k, v) :: rest, key => if k == key then v else jsLookup rest key

/-- Own enumerable entries of a value, as observed by the adapter when it
recurses into combinator children (filter objects). -/
def jsEntries : JVal → List (String × JVal)
  | .jobj entries => entries
  | _ => []

theorem sizeOf_jsEntries_le (v : JVal) : sizeOf (jsEntries v) ≤ sizeOf v := by
  cases v <;> simp [jsEntries] <;> try omega

/-- Translation of `formatValue` (adapter lines 275-287): strings quoted,
numbers as decimal literals, booleans literal, dates quoted ISO strings,
anything else the quoted `String(...)` coercion. -/
def formatValue (value : JVal) : String :=
  match value with
  | .jstr s => "\"" ++ s ++ "\""
  | .jnum n => toString n
  | .jbool b => if b then "true" else "false"
  | .jdate iso _ => "\"" ++ iso ++ "\""
  | v => "\"" ++ jsString v ++ "\""

/-- The clause-framing wrapper every predicate clause uses:
`\n  |> filter(fn: (r) => EXPR)`. -/
def filt (expr : String) : String :=
  "\n  |> filter(fn: (r) => " ++ expr ++ ")"

/-- One case of the operator `switch` in `handleFieldQuery`
(adapter lines 235-266); unrecognized operators fall through emitting
nothing, as do `$in` / `$nin` with a non-array operand. -/
def fieldOpClause (field : String) (operator : String) (opValue : JVal) : String :=
  if operator == "$eq" then filt ("r." ++ field ++ " == " ++ formatValue opValue)
  else if operator == "$ne" then filt ("r." ++ field ++ " != " ++ formatValue opValue)
  else if operator == "$in" then
    match opValue with
    | .jarr vs => filt ("r." ++ field ++ " in [" ++ String.intercalate ", " (vs.map formatValue) ++ "]")
    | _ => ""
  else if operator == "$nin" then
    match opValue with
    | .jarr vs => filt ("r." ++ field ++ " not in [" ++ String.intercalate ", " (vs.map formatValue) ++ "]")
    | _ => ""
  else if operator == "$lt" then filt ("r." ++ field ++ " < " ++ formatValue opValue)
  else if operator == "$lte" then filt ("r." ++ field ++ " <= " ++ formatValue opValue)
  else if operator == "$gt" then filt ("r." ++ field ++ " > " ++ formatValue opValue)
  else if operator == "$gte" then filt ("r." ++ field ++ " >= " ++ formatValue opValue)
  else ""

/-- Is `typeof value == "object" plus value !== null` true? (Arrays and
dates are `typeof "object"` in JavaScript; `null` fails the second test.) -/
def isObjectNonNull : JVal → Bool
  | .jobj _ => true
  | .jarr _ => true
  | .jdate _ _ => true
  | _ => false

/-- Translation of `handleFieldQuery` (adapter lines 229-273): an operator
object emits one clause per recognized operator entry in iteration order;
any other value emits a single equality clause. -/
def handleFieldQuery (fluxQuery : String) (field : String) (value : JVal) : String :=
  if isObjectNonNull value then
    (jsEntries value).foldl (fun acc p => acc ++ fieldOpClause field p.1 p.2) fluxQuery
  else
    fluxQuery ++ filt ("r." ++ field ++ " == " ++ formatValue value)

/-- Whitespace class of the regex `\s` for the characters the compiler can
emit. -/
def isWsChar (c : Char) : Bool :=
  c == ' ' || c == '\n' || c == '\t' || c == '\r'

/-- Translation of `conditionQuery.replace` with the anchored pattern `/^\s*\|>\s*/g`: the pattern
is anchored, so at most one leading `whitespace |> whitespace` run is
removed; a string not starting with that pattern is returned unchanged.
Computed on the character data so concrete queries evaluate. -/
def stripLeadingPipe (s : String) : String :=
  match s.data.dropWhile isWsChar with
  | '|' :: '>' :: t => String.mk (t.dropWhile isWsChar)
  | _ => s

/-- The test `key.startsWith "$"` used on filter keys, computed on the
character data so concrete queries evaluate. -/
def startsWithDollar (s : String) : Bool :=
  match s.data with
  | [] => false
  | c :: _ => c == '$'

/-- Is the value `undefined` or `null`?  The negation of the guard
`query[key] !== undefined && query[key] !== null` (adapter line 194). -/
def isNullOrUndef : JVal → Bool
  | .jnull => true
  | .jundef => true
  | _ => false

/-- The JavaScript test `Array.isArray(value)`. -/
def isArray : JVal → Bool
  | .jarr _ => true
  | _ => false

/-- The element list of an array value; only read behind an `isArray`
guard, exactly as the source only iterates after `Array.isArray`. -/
def arrayItems : JVal → List JVal
  | .jarr vs => vs
  | _ => []

mutual

/-- Translation of `buildQueryFilters` (adapter lines 188-200): keys
starting with `$` go to the operator handler; other keys with a value that
is neither `undefined` nor `null` go to the field handler; keys whose value
is `undefined` or `null` emit nothing. -/
def buildQueryFilters (fluxQuery : String) (query : List (String × JVal)) : String :=
  match query with
  | [] => fluxQuery
  | (key, value) :: rest =>
    let result :=
      if startsWithDollar key then handleQueryOperator fluxQuery key value
      else if !(isNullOrUndef value) then handleFieldQuery fluxQuery key value
      else fluxQuery
    buildQueryFilters result rest
termination_by sizeOf query
decreasing_by
  all_goals simp_wf
  all_goals omega

/-- Translation of `handleQueryOperator` (adapter lines 202-227): `$and`
folds each child through the filter builder; `$or` compiles each child from
an empty accumulator, strips the leading pipe marker, drops empty results,
and joins the survivors with ` or ` inside a single filter clause; every
other operator is ignored. -/
def handleQueryOperator (fluxQuery : String) (operator : String) (value : JVal) : String :=
  if operator == "$and" then
    if isArray value then andFold fluxQuery (arrayItems value) else fluxQuery
  else if operator == "$or" then
    if isArray value then
      let ors := orConditions (arrayItems value)
      if ors.length > 0 then
        fluxQuery ++ filt (String.intercalate " or " ors)
      else fluxQuery
    else fluxQuery
  else fluxQuery
termination_by sizeOf value
decreasing_by
  all_goals simp_wf
  all_goals (cases value <;> simp_all [isArray, arrayItems] <;> omega)

/-- The `value.forEach` loop of the `$and` case. -/
def andFold (fluxQuery : String) (conditions : List JVal) : String :=
  match conditions with
  | [] => fluxQuery
  | c :: rest => andFold (buildQueryFilters fluxQuery (jsEntries c)) rest
termination_by sizeOf conditions
decreasing_by
  all_goals simp_wf
  all_goals first
  | omega
  | (have h := sizeOf_jsEntries_le c; omega)

/-- The `value.map(...).filter(Boolean)` pipeline of the `$or` case. -/
def orConditions (conditions : List JVal) : List String :=
  match conditions with
  | [] => []
  | c :: rest =>
    let conditionQuery := stripLeadingPipe (buildQueryFilters "" (jsEntries c))
    if conditionQuery == "" then orConditions rest
    else conditionQuery :: orConditions rest
termination_by sizeOf conditions
decreasing_by
  all_goals simp_wf
  all_goals first
  | omega
  | (have h := sizeOf_jsEntries_le ‹JVal›; omega)

end

/-! ## Query assembler (`buildFluxQuery`, adapter lines 135-186) -/

/-- A `start` / `stop` bound of `params.timeRange`: a string or a `Date`
(carrying its `toISOString()` rendering). -/
inductive TimeVal where
  | tstr (s : String)
  | tdate (iso : String)

/-- Truthiness of an optional time bound (`timeRange.start ? ... : ...`);
an empty string is falsy, a `Date` object is always truthy. -/
def timeValTruthy : Option TimeVal → Bool
  | none => false
  | some (.tstr s) => s != ""
  | some (.tdate _) => true

/-- Rendering of a bound: a `Date` renders as `toISOString()`, a string is
used verbatim. -/
def timeValRender : TimeVal → String
  | .tstr s => s
  | .tdate iso => iso

/-- The optional `params.timeRange` object. -/
structure TimeRange where
  start : Option TimeVal
  stop : Option TimeVal

/-- The `start` expression: the bound if truthy, else the default `-1h`. -/
def startVal (o : Option TimeVal) : String :=
  if timeValTruthy o then
    match o with
    | some tv => timeValRender tv
    | none => "-1h"
  else "-1h"

/-- The `stop` expression: the bound if truthy, else the default `now()`. -/
def stopVal (o : Option TimeVal) : String :=
  if timeValTruthy o then
    match o with
    | some tv => timeValRender tv
    | none => "now()"
  else "now()"

/-- The range clause logic shared verbatim by `buildFluxQuery`
(lines 143-153) and `countDocuments` (lines 317-327). -/
def rangeClause (tr : TimeRange) : String :=
  if timeValTruthy tr.start || timeValTruthy tr.stop then
    "\n  |> range(start: " ++ startVal tr.start ++ ", stop: " ++ stopVal tr.stop ++ ")"
  else
    "\n  |> range(start: -1h)"

/-- The filters record produced by `filterQuery`: `$select`, `$sort`,
`$limit` (possibly `undefined` after `getLimit`), `$skip` (defaulted 0). -/
structure Filters where
  select : Option (List String)
  sort : Option (List (String × Int))
  limit : Option Int
  skip : Int

/-- The single sort stage string appended for one sort key
(adapter lines 164-167): the intermediate `direction` string is `"true"`
for an ascending (`=== 1`) key and the emitted `desc:` flag is the literal
boolean of `direction === "false"`. -/
def sortKeyClause (p : String × Int) : String :=
  let direction := if p.2 == 1 then "true" else "false"
  "\n  |> sort(columns: [\"" ++ p.1 ++ "\"], desc: " ++
    (if direction == "false" then "true" else "false") ++ ")"

/-- The clause sequence the per-key sort loop emits from an empty
accumulator. -/
def sortClauses (sortKeys : List (String × Int)) : String :=
  sortKeys.foldl (fun acc p => acc ++ sortKeyClause p) ""

/-- Number of occurrences of a character pattern inside a character list
(used to count how many pipeline stages of one kind a query contains). -/
def countSubstr (pat : List Char) : List Char → Nat
  | [] => 0
  | c :: rest => (if pat.isPrefixOf (c :: rest) then 1 else 0) + countSubstr pat rest

/-- Translation of `buildFluxQuery` (adapter lines 135-186): source, range,
measurement filter, predicate filters, per-key sort clauses, conditional
drop, conditional limit, conditional keep. -/
def buildFluxQuery (bucket measurement : String) (timeRange : TimeRange)
    (query : List (String × JVal)) (filters : Filters) : String :=
  let q0 := "from(bucket: \"" ++ bucket ++ "\")"
  let q1 := q0 ++ rangeClause timeRange
  let q2 := q1 ++ filt ("r._measurement == \"" ++ measurement ++ "\"")
  let q3 := buildQueryFilters q2 query
  let q4 :=
    match filters.sort with
    | some sortKeys => sortKeys.foldl (fun acc p => acc ++ sortKeyClause p) q3
    | none => q3
  let q5 :=
    if filters.skip != 0 && filters.skip > 0 then
      q4 ++ "\n  |> drop(n: " ++ toString filters.skip ++ ")"
    else q4
  let q6 :=
    match filters.limit with
    | some l => if l != 0 && l > 0 then q5 ++ "\n  |> limit(n: " ++ toString l ++ ")" else q5
    | none => q5
  let q7 :=
    match filters.select with
    | some sel =>
      if sel.length > 0 then
        q6 ++ "\n  |> keep(columns: [" ++
          String.intercalate ", " (sel.map (fun f => "\"" ++ f ++ "\"")) ++ "])"
      else q6
    | none => q6
  q7

/-- Translation of the counting query built by `countDocuments`
(adapter lines 311-331): source, range, measurement filter, `count()`.
It takes no filter-node input at all: the source never invokes
`buildQueryFilters` on this query. -/
def countQuery (bucket measurement : String) (timeRange : TimeRange) : String :=
  let q0 := "from(bucket: \"" ++ bucket ++ "\")"
  let q1 := q0 ++ rangeClause timeRange
  let q2 := q1 ++ filt ("r._measurement == \"" ++ measurement ++ "\"")
  q2 ++ "\n  |> count()"

/-! Stage-wise view of the assembled query, named after the eight stages of
the specification (source, range, measurement filter, predicates, sort,
skip, limit, projection).  `assembledOrdered` states the specified fixed
order; the refinement theorem for claim C1 proves `buildFluxQuery` equal to
it. -/

/-- Stage 1: source clause. -/
def sourceStage (bucket : String) : String :=
  "from(bucket: \"" ++ bucket ++ "\")"

/-- Stage 3: measurement filter clause. -/
def measurementStage (measurement : String) : String :=
  filt ("r._measurement == \"" ++ measurement ++ "\"")

/-- Stage 4: predicate clauses compiled from the filter node. -/
def predicateStage (query : List (String × JVal)) : String :=
  buildQueryFilters "" query

/-- Stage 5: sort clauses. -/
def sortStage (sort : Option (List (String × Int))) : String :=
  match sort with
  | some sortKeys => sortClauses sortKeys
  | none => ""

/-- Stage 6: skip clause, present exactly when `skip > 0`. -/
def skipStage (skip : Int) : String :=
  if skip != 0 && skip > 0 then "\n  |> drop(n: " ++ toString skip ++ ")" else ""

/-- Stage 7: limit clause, present exactly when a positive limit is given. -/
def limitStage (limit : Option Int) : String :=
  match limit with
  | some l => if l != 0 && l > 0 then "\n  |> limit(n: " ++ toString l ++ ")" else ""
  | none => ""

/-- Stage 8: projection clause, present exactly for a nonempty selection. -/
def selectStage (select : Option (List String)) : String :=
  match select with
  | some sel =>
    if sel.length > 0 then
      "\n  |> keep(columns: [" ++
        String.intercalate ", " (sel.map (fun f => "\"" ++ f ++ "\"")) ++ "])"
    else ""
  | none => ""

/-- The specified fixed clause order: source, range, measurement filter,
predicates, sort, skip, limit, projection. -/
def assembledOrdered (bucket measurement : String) (timeRange : TimeRange)
    (query : List (String × JVal)) (filters : Filters) : String :=
  sourceStage bucket ++ rangeClause timeRange ++ measurementStage measurement ++
    predicateStage query ++ sortStage filters.sort ++ skipStage filters.skip ++
    limitStage filters.limit ++ selectStage filters.select

/-- Stated from the claim for C3: a counting query that keeps the data
stages 1-4 of the data query — including the predicate clauses compiled from the
filter node — and replaces stages 5-8 with a count aggregation. -/
def countQueryClaimed (bucket measurement : String) (timeRange : TimeRange)
    (query : List (String × JVal)) : String :=
  sourceStage bucket ++ rangeClause timeRange ++ measurementStage measurement ++
    predicateStage query ++ "\n  |> count()"

/-- Stated from the claim for C6: the timestamp the mapper is claimed to
assign — taken from `record[timeField]` for the configured time-field name
whenever that key is present, unset otherwise. -/
def timestampClaimed (timeField : String) (item : List (String × JVal)) : Option JVal :=
  match jsLookup item timeField with
  | .jundef => none
  | v => some v

/-! ## Write mapper (`_create` / `createPoint`, adapter lines 408-487) -/

/-- A typed field value of a `Point`, named after the client calls the
mapper makes (`floatField` / `booleanField` / `stringField`). -/
inductive FieldVal where
  | floatField (n : Int)
  | booleanField (b : Bool)
  | stringField (s : String)

/-- The `Point` the mapper builds.  In the client library the `Point` keeps tags and
fields as separate string-keyed maps; we keep them as ordered association
lists.  `tag` values are kept as `JVal` so that the string-coercion
invariant is a statement rather than a typing artifact; `timestamp` stores
the raw value handed to `new Date(...)` (date construction itself is the
concern of the client collaborator). -/
structure PointM where
  measurement : String
  timestamp : Option JVal
  tags : List (String × JVal)
  fields : List (String × FieldVal)

/-- JavaScript object-property assignment `m[k] = v` on an association
list: an existing key is overwritten in place, a new key is appended. -/
def setEntry {α : Type} (l : List (String × α)) (k : String) (v : α) : List (String × α) :=
  if l.any (fun p => p.1 == k) then
    l.map (fun p => if p.1 == k then (k, v) else p)
  else l ++ [(k, v)]

/-- The numeric/boolean/string coercion both field loops use
(adapter lines 441-447 and 455-461). -/
def toFieldVal (value : JVal) : FieldVal :=
  match value with
  | .jnum n => .floatField n
  | .jbool b => .booleanField b
  | v => .stringField (jsString v)

/-- The `tagFields.forEach` loop (adapter lines 431-435): each allowlisted
tag present in the record (not `undefined`) is added with its value coerced
by `String(...)`. -/
def applyTagFields (item : List (String × JVal)) (tagFields : List String) (p : PointM) : PointM :=
  tagFields.foldl (fun p tag =>
    match jsLookup item tag with
    | .jundef => p
    | v => { p with tags := setEntry p.tags tag (.jstr (jsString v)) }) p

/-- The `fieldFields.forEach` loop (adapter lines 438-449). -/
def applyFieldFields (item : List (String × JVal)) (fieldFields : List String) (p : PointM) : PointM :=
  fieldFields.foldl (fun p field =>
    match jsLookup item field with
    | .jundef => p
    | v => { p with fields := setEntry p.fields field (toFieldVal v) }) p

/-- The remaining-keys loop (adapter lines 452-463): every record key in
neither allowlist and distinct from `_time` and `_measurement` becomes a
typed field under the same coercion rule. -/
def applyRemaining (tagFields fieldFields : List String)
    (item : List (String × JVal)) (p : PointM) : PointM :=
  item.foldl (fun p kv =>
    if !(tagFields.contains kv.1) && !(fieldFields.contains kv.1)
        && kv.1 != "_time" && kv.1 != "_measurement" then
      { p with fields := setEntry p.fields kv.1 (toFieldVal kv.2) }
    else p) p

/-- Translation of `createPoint` (adapter lines 422-466).  The timestamp is
taken from the literal `item._time` property when truthy (lines 426-428);
the configured `timeField` option is not consulted anywhere in `_create`. -/
def createPoint (measurement : String) (tagFields fieldFields : List String)
    (item : List (String × JVal)) : PointM :=
  let p0 : PointM := { measurement := measurement, timestamp := none, tags := [], fields := [] }
  let p1 :=
    if jsTruthy (jsLookup item "_time") then
      { p0 with timestamp := some (jsLookup item "_time") }
    else p0
  let p2 := applyTagFields item tagFields p1
  let p3 := applyFieldFields item fieldFields p2
  applyRemaining tagFields fieldFields item p3

/-- The record `_create` returns to the caller (adapter lines 475 and 483):
`{ ...item, _time: item._time || new Date().toISOString() }`, with the
current-time source passed in as `now`. -/
def createResult (now : String) (item : List (String × JVal)) : List (String × JVal) :=
  setEntry item "_time"
    (if jsTruthy (jsLookup item "_time") then jsLookup item "_time" else .jstr now)

/-! ## Read-many (`_find`, adapter lines 371-406) -/

/-- The `paginate` service option (`{ default, max }`). -/
structure PaginateOpts where
  defaultLimit : Option Nat
  maxLimit : Option Nat

/-- The guard `params.paginate === false || !paginate || !paginate.default`
(adapter line 377). -/
def paginationDisabled (paramsPaginateFalse : Bool) (paginate : Option PaginateOpts) : Bool :=
  paramsPaginateFalse ||
    (match paginate with
     | none => true
     | some p =>
       match p.defaultLimit with
       | none => true
       | some n => n == 0)

/-- The value `_find` resolves with: a plain sequence or the paginated
envelope `{total, limit, skip, data}`. -/
inductive FindReturn (α : Type) where
  | plain (data : List α)
  | envelope (total : Nat) (limit : Option Int) (skip : Int) (data : List α)

/-- Outcome of one `_find` call, also recording which collaborator queries
the call issued (`queryRaw` for data, `countDocuments` for the total). -/
structure FindTrace (α : Type) where
  result : FindReturn α
  dataQueried : Bool
  countQueried : Bool

/-- Translation of `_find` (adapter lines 374-406).  The two collaborator
calls are shallowly embedded by passing in the rows the data query would
produce and the total the counting query would produce; the trace records
which of the two queries the control path actually issues. -/
def _find {α : Type} (paramsPaginateFalse : Bool) (paginate : Option PaginateOpts)
    (filters : Filters) (dataResult : List α) (countResult : Nat) : FindTrace α :=
  if paginationDisabled paramsPaginateFalse paginate then
    if filters.limit == some 0 then
      { result := .plain [], dataQueried := false, countQueried := false }
    else
      { result := .plain dataResult, dataQueried := true, countQueried := false }
  else if filters.limit == some 0 then
    { result := .envelope countResult filters.limit filters.skip [],
      dataQueried := false, countQueried := true }
  else
    { result := .envelope countResult filters.limit filters.skip dataResult,
      dataQueried := true, countQueried := true }

/-! ## Rejected mutations (adapter lines 489-516, service lines 43-60) -/

/-- The error kinds the adapter raises on its own; store errors are wrapped
elsewhere. -/
inductive FeathersError where
  | methodNotAllowed (msg : String)
  | notFound (msg : String)

/-- Translation of `_patch` (adapter lines 489-498): unconditional
`MethodNotAllowed`, no other effect. -/
def _patch {ι δ π ρ : Type} (id : ι) (data : δ) (params : π) : Except FeathersError ρ :=
  .error (.methodNotAllowed
    "InfluxDB does not support updating existing records. Use _create to write new data points.")

/-- Translation of `_update` (adapter lines 500-506). -/
def _update {ι δ π ρ : Type} (id : ι) (data : δ) (params : π) : Except FeathersError ρ :=
  .error (.methodNotAllowed
    "InfluxDB does not support updating existing records. Use _create to write new data points.")

/-- Translation of `_remove` (adapter lines 508-516). -/
def _remove {ι π ρ : Type} (id : ι) (params : π) : Except FeathersError ρ :=
  .error (.methodNotAllowed
    "InfluxDB does not support deleting individual records. Use retention policies or drop measurements instead.")

namespace InfluxDBService

/-- Translation of `InfluxDBService.update` (service lines 43-46). -/
def update {ι δ π ρ : Type} (id : ι) (data : δ) (params : π) : Except FeathersError ρ :=
  .error (.methodNotAllowed
    "InfluxDB does not support updating existing records. Use create to write new data points.")

/-- Translation of `InfluxDBService.patch` (service lines 48-53). -/
def patch {ι δ π ρ : Type} (id : ι) (data : δ) (params : π) : Except FeathersError ρ :=
  .error (.methodNotAllowed
    "InfluxDB does not support patching existing records. Use create to write new data points.")

/-- Translation of `InfluxDBService.remove` (service lines 55-60). -/
def remove {ι π ρ : Type} (id : ι) (params : π) : Except FeathersError ρ :=
  .error (.methodNotAllowed
    "InfluxDB does not support deleting individual records. Use retention policies or drop measurements instead.")

end InfluxDBService

/-! ## Structural lemmas: every compiler function appends clauses to its
accumulator, so the accumulator factors out on the left. -/

theorem foldl_append_factor {α : Type} (g : α → String) :
    ∀ (l : List α) (acc : String),
      l.foldl (fun a x => a ++ g x) acc = acc ++ l.foldl (fun a x => a ++ g x) "" := by
  intro l
  induction l with
  | nil => intro acc; simp
  | cons x xs ih =>
    intro acc
    simp only [List.foldl_cons]
    rw [ih (acc ++ g x), ih ("" ++ g x), String.empty_append, String.append_assoc]

theorem foldl_append_eq_join {α : Type} (g : α → String) :
    ∀ (l : List α), l.foldl (fun a x => a ++ g x) "" = String.join (l.map g) := by
  intro l
  induction l with
  | nil => rfl
  | cons x xs ih =>
    simp only [List.foldl_cons, List.map_cons, String.join]
    rw [foldl_append_factor g xs ("" ++ g x), ih, String.empty_append,
      foldl_append_factor (fun (s : String) => s) (List.map g xs) (g x)]
    rfl

theorem handleFieldQuery_factor (acc field : String) (v : JVal) :
    handleFieldQuery acc field v = acc ++ handleFieldQuery "" field v := by
  unfold handleFieldQuery
  cases h : isObjectNonNull v
  · simp [h]
  · simp only [h, if_pos]
    rw [foldl_append_factor (fun p => fieldOpClause field p.1 p.2) (jsEntries v) acc,
      foldl_append_factor (fun p => fieldOpClause field p.1 p.2) (jsEntries v) ""]

mutual

theorem buildQueryFilters_factor (acc : String) (q : List (String × JVal)) :
    buildQueryFilters acc q = acc ++ buildQueryFilters "" q := by
  cases q with
  | nil => simp [buildQueryFilters]
  | cons kv rest =>
    obtain ⟨k, v⟩ := kv
    simp only [buildQueryFilters]
    rw [buildQueryFilters_factor
      (if startsWithDollar k then handleQueryOperator acc k v
       else if !(isNullOrUndef v) then handleFieldQuery acc k v
       else acc) rest]
    rw [buildQueryFilters_factor
      (if startsWithDollar k then handleQueryOperator "" k v
       else if !(isNullOrUndef v) then handleFieldQuery "" k v
       else "") rest]
    rw [← String.append_assoc]
    congr 1
    by_cases hk : startsWithDollar k
    · simp only [hk, if_pos]
      exact handleQueryOperator_factor acc k v
    · by_cases hn : isNullOrUndef v
      · simp [hk, hn]
      · simp only [hk, hn, Bool.not_false, if_true, Bool.false_eq_true, if_false]
        exact handleFieldQuery_factor acc k v
termination_by sizeOf q
decreasing_by
  all_goals simp_wf
  all_goals omega

theorem handleQueryOperator_factor (acc op : String) (v : JVal) :
    handleQueryOperator acc op v = acc ++ handleQueryOperator "" op v := by
  rw [handleQueryOperator.eq_1, handleQueryOperator.eq_1]
  by_cases hand : op == "$and"
  · by_cases ha : isArray v
    · simp only [hand, ha, if_true]
      exact andFold_factor acc (arrayItems v)
    · simp [hand, ha]
  · by_cases hor : op == "$or"
    · by_cases ha : isArray v
      · by_cases hlen : (orConditions (arrayItems v)).length > 0
        · simp [hand, hor, ha, hlen, String.append_assoc]
        · simp [hand, hor, ha, hlen]
      · simp [hand, hor, ha]
    · simp [hand, hor]
termination_by sizeOf v
decreasing_by
  all_goals simp_wf
  all_goals (cases v <;> simp_all [isArray, arrayItems] <;> omega)

theorem andFold_factor (acc : String) (conditions : List JVal) :
    andFold acc conditions = acc ++ andFold "" conditions := by
  cases conditions with
  | nil => simp [andFold]
  | cons c rest =>
    simp only [andFold]
    rw [andFold_factor (buildQueryFilters acc (jsEntries c)) rest,
      andFold_factor (buildQueryFilters "" (jsEntries c)) rest]
    rw [buildQueryFilters_factor acc (jsEntries c), String.append_assoc]
termination_by sizeOf conditions
decreasing_by
  all_goals simp_wf
  all_goals first
  | omega
  | (have h := sizeOf_jsEntries_le ‹JVal›; omega)

end

theorem string_append_eq_empty_iff (s t : String) : s ++ t = "" ↔ s = "" ∧ t = "" := by
  cases s with
  | mk a =>
    cases t with
    | mk b =>
      constructor
      · intro h
        have hd : a ++ b = [] := congrArg String.data h
        rcases List.append_eq_nil.mp hd with ⟨ha, hb⟩
        exact ⟨by simp [ha], by simp [hb]⟩
      · rintro ⟨h1, h2⟩
        have ha : a = [] := congrArg String.data h1
        have hb : b = [] := congrArg String.data h2
        subst ha; subst hb; rfl

theorem sortFoldl_factor (sortKeys : List (String × Int)) (acc : String) :
    sortKeys.foldl (fun a p => a ++ sortKeyClause p) acc = acc ++ sortClauses sortKeys := by
  rw [sortClauses, foldl_append_factor sortKeyClause sortKeys acc]

/-- C1. For every combination of bucket, measurement, time range, filter
node, sort spec, skip, limit and projection inputs, `buildFluxQuery`
produces exactly the ordered concatenation of the eight stages — source,
range, measurement filter, predicates, sort, skip, limit, projection —
with absent stages contributing the empty string, and the skip stage is
nonempty exactly when `skip > 0` while the limit stage is nonempty exactly
when a positive limit is present. -/
theorem claim1_clause_order (bucket measurement : String) (timeRange : TimeRange)
    (query : List (String × JVal)) (filters : Filters) :
    buildFluxQuery bucket measurement timeRange query filters =
        assembledOrdered bucket measurement timeRange query filters ∧
      (skipStage filters.skip ≠ "" ↔ 0 < filters.skip) ∧
      (limitStage filters.limit ≠ "" ↔ ∃ l, filters.limit = some l ∧ 0 < l) := by
  obtain ⟨sel, srt, lim, skp⟩ := filters
  refine ⟨?_, ?_, ?_⟩
  · simp only [buildFluxQuery, assembledOrdered, sourceStage, measurementStage, predicateStage,
      sortStage, skipStage, limitStage, selectStage]
    rw [buildQueryFilters_factor]
    cases srt <;> cases lim <;> cases sel <;>
      simp only [sortFoldl_factor] <;>
      split_ifs <;>
      (simp only [String.append_assoc, String.append_empty, String.empty_append]; try rfl)
  · simp only [skipStage]
    split_ifs with h
    · simp only [Bool.and_eq_true, bne_iff_ne, ne_eq, decide_eq_true_eq] at h
      constructor
      · intro _; omega
      · intro _
        intro hc
        rw [string_append_eq_empty_iff] at hc
        rw [string_append_eq_empty_iff] at hc
        exact absurd hc.1.1 (by decide)
    · simp only [Bool.and_eq_true, bne_iff_ne, ne_eq, decide_eq_true_eq, not_and] at h
      simp only [ne_eq, not_true_eq_false, false_iff]
      omega
  · cases lim with
    | none => simp [limitStage]
    | some l =>
      simp only [limitStage]
      split_ifs with h
      · simp only [Bool.and_eq_true, bne_iff_ne, ne_eq, decide_eq_true_eq] at h
        constructor
        · intro _; exact ⟨l, rfl, h.2⟩
        · intro _
          intro hc
          rw [string_append_eq_empty_iff] at hc
          rw [string_append_eq_empty_iff] at hc
          exact absurd hc.1.1 (by decide)
      · simp only [Bool.and_eq_true, bne_iff_ne, ne_eq, decide_eq_true_eq, not_and] at h
        simp only [ne_eq, not_true_eq_false, false_iff]
        rintro ⟨l2, hl2, hpos⟩
        cases hl2
        omega

/-- C2. At the scenario input of the claim, `{$or: [{device: "a"}, {device: "b"}]}`
the compiler does emit exactly one clause, but the per-child stripping
removes only the leading pipe marker, so the emitted predicate still
contains the clause framing `filter(fn: (r) => ...)` around each child and
is not the claimed `(r.device == "a") or (r.device == "b")`. -/
theorem claim2_or_actual_output :
    handleQueryOperator "" "$or"
        (.jarr [.jobj [("device", .jstr "a")], .jobj [("device", .jstr "b")]]) =
      "\n  |> filter(fn: (r) => filter(fn: (r) => r.device == \"a\") or filter(fn: (r) => r.device == \"b\"))" ∧
    ("\n  |> filter(fn: (r) => filter(fn: (r) => r.device == \"a\") or filter(fn: (r) => r.device == \"b\"))" : String) ≠
      "\n  |> filter(fn: (r) => (r.device == \"a\") or (r.device == \"b\"))" := by
  constructor
  · simp [handleQueryOperator, orConditions, buildQueryFilters, handleFieldQuery, isObjectNonNull,
      isNullOrUndef, isArray, arrayItems, startsWithDollar, jsEntries, formatValue, filt,
      stripLeadingPipe]
    try decide
  · decide

/-- C3 counterexample: for the filter `{device: "a"}` the counting query the
code builds does not contain the predicate clause the claim requires — it
differs from the stages-1-to-4-plus-count query of the claim. -/
theorem claim3_counterexample :
    countQuery "bkt" "m" ⟨none, none⟩ ≠
      countQueryClaimed "bkt" "m" ⟨none, none⟩ [("device", .jstr "a")] := by
  simp [countQuery, countQueryClaimed, sourceStage, measurementStage, predicateStage, rangeClause,
    timeValTruthy, startVal, stopVal, buildQueryFilters, handleFieldQuery, isObjectNonNull,
    isNullOrUndef, startsWithDollar, jsEntries, formatValue, filt]
  try decide

/-- C3 amended: the counting query consists of stages 1-3 only (source,
range, measurement filter) followed by the count aggregation; the filter
predicate clauses of the filter node are omitted as well (the function
takes no filter input), and the query is built independently of the result
of the data query. -/
theorem claim3_amended (bucket measurement : String) (timeRange : TimeRange) :
    countQuery bucket measurement timeRange =
      sourceStage bucket ++ rangeClause timeRange ++ measurementStage measurement ++
        "\n  |> count()" := by
  simp [countQuery, sourceStage, measurementStage, String.append_assoc]

/-- C4. For every field mapped to an operator object the compiler emits the
ordered concatenation of one translated fragment per operator entry, in the
iteration order of the operator object, and the fragments for the recognized
operators are the single clauses with the translation eq→==, ne→!=, lt→<,
lte→<=, gt→>, gte→>=, in→membership against a literal list, nin→negated
membership; in particular the scenario filter
`{status: {$ne: "offline"}, temperature: {$gt: 20, $lt: 30}}` compiles to
exactly those three clauses in that order. -/
theorem claim4_field_operators :
    (∀ (acc field : String) (ops : List (String × JVal)),
        handleFieldQuery acc field (.jobj ops) =
          acc ++ String.join (ops.map (fun p => fieldOpClause field p.1 p.2))) ∧
    (∀ (field : String) (v : JVal),
        fieldOpClause field "$eq" v = filt ("r." ++ field ++ " == " ++ formatValue v) ∧
        fieldOpClause field "$ne" v = filt ("r." ++ field ++ " != " ++ formatValue v) ∧
        fieldOpClause field "$lt" v = filt ("r." ++ field ++ " < " ++ formatValue v) ∧
        fieldOpClause field "$lte" v = filt ("r." ++ field ++ " <= " ++ formatValue v) ∧
        fieldOpClause field "$gt" v = filt ("r." ++ field ++ " > " ++ formatValue v) ∧
        fieldOpClause field "$gte" v = filt ("r." ++ field ++ " >= " ++ formatValue v)) ∧
    (∀ (field : String) (vs : List JVal),
        fieldOpClause field "$in" (.jarr vs) =
          filt ("r." ++ field ++ " in [" ++ String.intercalate ", " (vs.map formatValue) ++ "]") ∧
        fieldOpClause field "$nin" (.jarr vs) =
          filt ("r." ++ field ++ " not in [" ++
            String.intercalate ", " (vs.map formatValue) ++ "]")) ∧
    buildQueryFilters ""
        [("status", .jobj [("$ne", .jstr "offline")]),
         ("temperature", .jobj [("$gt", .jnum 20), ("$lt", .jnum 30)])] =
      "\n  |> filter(fn: (r) => r.status != \"offline\")" ++
        "\n  |> filter(fn: (r) => r.temperature > 20)" ++
        "\n  |> filter(fn: (r) => r.temperature < 30)" := by
  refine ⟨?_, ?_, ?_, ?_⟩
  · intro acc field ops
    unfold handleFieldQuery
    simp only [isObjectNonNull, if_true, jsEntries]
    rw [foldl_append_factor (fun p => fieldOpClause field p.1 p.2) ops acc,
      foldl_append_eq_join]
  · intro field v
    refine ⟨rfl, ?_, ?_, ?_, ?_, ?_⟩ <;> simp [fieldOpClause]
  · intro field vs
    constructor <;> simp [fieldOpClause]
  · simp [buildQueryFilters, handleFieldQuery, isObjectNonNull, isNullOrUndef, startsWithDollar,
      jsEntries, fieldOpClause, formatValue, filt]
    try decide

/-- C5 counterexample: the two-key sort spec `{a: 1, b: -1}` produces two
separate single-column sort clauses (the `|> sort(` stage appears twice),
not one sort clause listing both keys as the claim states. -/
theorem claim5_counterexample :
    sortStage (some [("a", 1), ("b", -1)]) =
        "\n  |> sort(columns: [\"a\"], desc: false)\n  |> sort(columns: [\"b\"], desc: true)" ∧
      countSubstr "|> sort(".data (sortStage (some [("a", 1), ("b", -1)])).data = 2 := by
  constructor
  · decide
  · decide

/-- C5 amended: for every sort spec the assembler emits one sort clause per
key, in the order given, each clause naming that single key, with ascending
(`1`) mapped to `desc: false` and every other direction to `desc: true`. -/
theorem claim5_amended (sortKeys : List (String × Int)) :
    sortStage (some sortKeys) = String.join (sortKeys.map sortKeyClause) ∧
    ∀ (k : String) (d : Int),
      sortKeyClause (k, d) =
        "\n  |> sort(columns: [\"" ++ k ++ "\"], desc: " ++
          (if d == 1 then "false" else "true") ++ ")" := by
  constructor
  · simp only [sortStage, sortClauses]
    exact foldl_append_eq_join sortKeyClause sortKeys
  · intro k d
    by_cases h : d == 1 <;> simp [sortKeyClause, h]

/-- C8. For every find call with `$limit = 0`: when pagination is enabled
the result is the envelope whose total comes from the counting query, with limit 0, the
given skip and empty data, with only the counting query issued; when
pagination is disabled the result is the empty plain sequence and neither
query is issued. -/
theorem claim8_find_limit_zero {α : Type} (paramsPaginateFalse : Bool)
    (paginate : Option PaginateOpts) (sel : Option (List String))
    (srt : Option (List (String × Int))) (skp : Int)
    (dataResult : List α) (countResult : Nat) :
    _find paramsPaginateFalse paginate ⟨sel, srt, some 0, skp⟩ dataResult countResult =
      if paginationDisabled paramsPaginateFalse paginate then
        { result := .plain [], dataQueried := false, countQueried := false }
      else
        { result := .envelope countResult (some 0) skp [],
          dataQueried := false, countQueried := true } := by
  by_cases h : paginationDisabled paramsPaginateFalse paginate <;> simp [_find, h]

/-- C9. For every identifier, data and params (over arbitrary types, so in
particular for a null identifier), each of the six mutation entry points —
the `_update`, `_patch`, `_remove` of the adapter and the `update`,
`patch`, `remove` — returns the `MethodNotAllowed` error with its fixed
message and has no other effect. -/
theorem claim9_mutations_always_rejected {ι δ π ρ : Type} (id : ι) (data : δ) (params : π) :
    @_update ι δ π ρ id data params =
        .error (.methodNotAllowed
          "InfluxDB does not support updating existing records. Use _create to write new data points.") ∧
    @_patch ι δ π ρ id data params =
        .error (.methodNotAllowed
          "InfluxDB does not support updating existing records. Use _create to write new data points.") ∧
    @_remove ι π ρ id params =
        .error (.methodNotAllowed
          "InfluxDB does not support deleting individual records. Use retention policies or drop measurements instead.") ∧
    @InfluxDBService.update ι δ π ρ id data params =
        .error (.methodNotAllowed
          "InfluxDB does not support updating existing records. Use create to write new data points.") ∧
    @InfluxDBService.patch ι δ π ρ id data params =
        .error (.methodNotAllowed
          "InfluxDB does not support patching existing records. Use create to write new data points.") ∧
    @InfluxDBService.remove ι π ρ id params =
        .error (.methodNotAllowed
          "InfluxDB does not support deleting individual records. Use retention policies or drop measurements instead.") :=
  ⟨rfl, rfl, rfl, rfl, rfl, rfl⟩

/-- C10. A non-reserved query key whose value is `null` or `undefined`
contributes no predicate clause: the compiled query equals the one for the
filter with that key removed, wherever the key sits in the filter node. -/
theorem claim10_null_undef_dropped (acc k : String) (v : JVal)
    (hk : startsWithDollar k = false) (hv : v = .jnull ∨ v = .jundef)
    (pre post : List (String × JVal)) :
    buildQueryFilters acc (pre ++ (k, v) :: post) = buildQueryFilters acc (pre ++ post) := by
  induction pre generalizing acc with
  | nil =>
    simp only [List.nil_append]
    rcases hv with rfl | rfl <;>
      (simp only [buildQueryFilters]; simp [hk, isNullOrUndef])
  | cons kv rest ih =>
    obtain ⟨k2, v2⟩ := kv
    simp only [List.cons_append, buildQueryFilters]
    exact ih _

/-- Witness for C10 at the filter `{a: "x", device: null}`. -/
theorem claim10_null_undef_dropped_witness :
    startsWithDollar "device" = false ∧
    ((JVal.jnull = JVal.jnull) ∨ (JVal.jnull = JVal.jundef)) ∧
    buildQueryFilters "" ([("a", .jstr "x")] ++ ("device", .jnull) :: []) =
      buildQueryFilters "" ([("a", .jstr "x")] ++ []) :=
  ⟨by decide, Or.inl rfl,
    claim10_null_undef_dropped "" "device" .jnull (by decide) (Or.inl rfl) [("a", .jstr "x")] []⟩

/-! ## Write-mapper lemmas -/

theorem foldl_component_const {σ β γ : Type} (f : σ → β → σ) (proj : σ → γ)
    (hf : ∀ s b, proj (f s b) = proj s) :
    ∀ (l : List β) (s : σ), proj (l.foldl f s) = proj s := by
  intro l
  induction l with
  | nil => intro s; rfl
  | cons b bs ih => intro s; rw [List.foldl_cons, ih, hf]

theorem applyTagFields_timestamp (item : List (String × JVal)) (tagFields : List String)
    (p : PointM) : (applyTagFields item tagFields p).timestamp = p.timestamp := by
  refine foldl_component_const _ PointM.timestamp ?_ tagFields p
  intro s t
  cases jsLookup item t <;> rfl

theorem applyTagFields_fields (item : List (String × JVal)) (tagFields : List String)
    (p : PointM) : (applyTagFields item tagFields p).fields = p.fields := by
  refine foldl_component_const _ PointM.fields ?_ tagFields p
  intro s t
  cases jsLookup item t <;> rfl

theorem applyFieldFields_timestamp (item : List (String × JVal)) (fieldFields : List String)
    (p : PointM) : (applyFieldFields item fieldFields p).timestamp = p.timestamp := by
  refine foldl_component_const _ PointM.timestamp ?_ fieldFields p
  intro s t
  cases jsLookup item t <;> rfl

theorem applyFieldFields_tags (item : List (String × JVal)) (fieldFields : List String)
    (p : PointM) : (applyFieldFields item fieldFields p).tags = p.tags := by
  refine foldl_component_const _ PointM.tags ?_ fieldFields p
  intro s t
  cases jsLookup item t <;> rfl

theorem applyRemaining_timestamp (tagFields fieldFields : List String)
    (item : List (String × JVal)) (p : PointM) :
    (applyRemaining tagFields fieldFields item p).timestamp = p.timestamp := by
  refine foldl_component_const _ PointM.timestamp ?_ item p
  intro s kv
  dsimp only
  split <;> rfl

theorem applyRemaining_tags (tagFields fieldFields : List String)
    (item : List (String × JVal)) (p : PointM) :
    (applyRemaining tagFields fieldFields item p).tags = p.tags := by
  refine foldl_component_const _ PointM.tags ?_ item p
  intro s kv
  dsimp only
  split <;> rfl

theorem mem_setEntry {α : Type} (l : List (String × α)) (k : String) (v : α) (q : String × α)
    (hq : q ∈ setEntry l k v) : q ∈ l ∨ q = (k, v) := by
  unfold setEntry at hq
  by_cases h : l.any (fun p => p.1 == k)
  · simp only [h, if_true] at hq
    rcases List.mem_map.mp hq with ⟨q0, hq0, hmap⟩
    by_cases h2 : q0.1 == k
    · simp only [h2, if_true] at hmap
      exact Or.inr hmap.symm
    · simp only [h2, Bool.false_eq_true, if_false] at hmap
      exact Or.inl (hmap ▸ hq0)
  · simp only [h, Bool.false_eq_true, if_false] at hq
    rcases List.mem_append.mp hq with h1 | h1
    · exact Or.inl h1
    · exact Or.inr (List.mem_singleton.mp h1)

theorem applyTagFields_tags_sub (item : List (String × JVal)) (tagFields : List String) :
    ∀ (p : PointM) (q : String × JVal), q ∈ (applyTagFields item tagFields p).tags →
      q ∈ p.tags ∨ (q.1 ∈ tagFields ∧ ∃ s, q.2 = .jstr s) := by
  induction tagFields with
  | nil => intro p q hq; exact Or.inl hq
  | cons t ts ih =>
    intro p q hq
    have hstep : applyTagFields item (t :: ts) p =
        applyTagFields item ts
          (match jsLookup item t with
           | .jundef => p
           | v => { p with tags := setEntry p.tags t (.jstr (jsString v)) }) := rfl
    rw [hstep] at hq
    rcases ih _ q hq with h | h
    · revert h
      cases jsLookup item t <;> intro h <;>
        first
        | exact Or.inl h
        | (rcases mem_setEntry _ _ _ _ h with h2 | h2
           · exact Or.inl h2
           · subst h2
             exact Or.inr ⟨List.mem_cons_self _ _, _, rfl⟩)
    · exact Or.inr ⟨List.mem_cons_of_mem _ h.1, h.2⟩

theorem applyFieldFields_fields_sub (item : List (String × JVal)) (fieldFields : List String) :
    ∀ (p : PointM) (q : String × FieldVal), q ∈ (applyFieldFields item fieldFields p).fields →
      q ∈ p.fields ∨ q.1 ∈ fieldFields := by
  induction fieldFields with
  | nil => intro p q hq; exact Or.inl hq
  | cons t ts ih =>
    intro p q hq
    have hstep : applyFieldFields item (t :: ts) p =
        applyFieldFields item ts
          (match jsLookup item t with
           | .jundef => p
           | v => { p with fields := setEntry p.fields t (toFieldVal v) }) := rfl
    rw [hstep] at hq
    rcases ih _ q hq with h | h
    · revert h
      cases jsLookup item t <;> intro h <;>
        first
        | exact Or.inl h
        | (rcases mem_setEntry _ _ _ _ h with h2 | h2
           · exact Or.inl h2
           · subst h2
             exact Or.inr (List.mem_cons_self _ _))
    · exact Or.inr (List.mem_cons_of_mem _ h)

theorem applyRemaining_fields_sub (tagFields fieldFields : List String)
    (item : List (String × JVal)) :
    ∀ (p : PointM) (q : String × FieldVal), q ∈ (applyRemaining tagFields fieldFields item p).fields →
      q ∈ p.fields ∨ tagFields.contains q.1 = false := by
  induction item with
  | nil => intro p q hq; exact Or.inl hq
  | cons kv rest ih =>
    intro p q hq
    have hstep : applyRemaining tagFields fieldFields (kv :: rest) p =
        applyRemaining tagFields fieldFields rest
          (if !(tagFields.contains kv.1) && !(fieldFields.contains kv.1)
              && kv.1 != "_time" && kv.1 != "_measurement" then
            { p with fields := setEntry p.fields kv.1 (toFieldVal kv.2) }
          else p) := rfl
    rw [hstep] at hq
    rcases ih _ q hq with h | h
    · by_cases hc : (!(tagFields.contains kv.1) && !(fieldFields.contains kv.1)
          && kv.1 != "_time" && kv.1 != "_measurement") = true
      · rw [if_pos hc] at h
        rcases mem_setEntry _ _ _ _ h with h2 | h2
        · exact Or.inl h2
        · subst h2
          simp only [Bool.and_eq_true, Bool.not_eq_true'] at hc
          exact Or.inr hc.1.1.1
      · rw [if_neg hc] at h
        exact Or.inl h
    · exact Or.inr h

theorem jsLookup_map_replace (k : String) (v : JVal) :
    ∀ (l : List (String × JVal)), l.any (fun p => p.1 == k) = true →
      jsLookup (l.map (fun p => if p.1 == k then (k, v) else p)) k = v := by
  intro l
  induction l with
  | nil => intro h; simp at h
  | cons kv rest ih =>
    intro h
    obtain ⟨k0, v0⟩ := kv
    rw [List.map_cons]
    by_cases h0 : (k0 == k) = true
    · rw [show (if ((k0, v0).1 == k) = true then (k, v) else (k0, v0)) = (k, v) from if_pos h0]
      simp only [jsLookup, beq_self_eq_true, if_true]
    · rw [show (if ((k0, v0).1 == k) = true then (k, v) else (k0, v0)) = (k0, v0) from if_neg h0]
      simp only [jsLookup, h0, Bool.false_eq_true, if_false]
      apply ih
      rw [List.any_cons] at h
      rcases Bool.or_eq_true_iff.mp h with h1 | h1
      · exact absurd h1 h0
      · exact h1

theorem jsLookup_append_not_found (k : String) (v : JVal) :
    ∀ (l : List (String × JVal)), l.any (fun p => p.1 == k) = false →
      jsLookup (l ++ [(k, v)]) k = v := by
  intro l
  induction l with
  | nil => intro _; simp only [List.nil_append, jsLookup, beq_self_eq_true, if_true]
  | cons kv rest ih =>
    intro h
    obtain ⟨k0, v0⟩ := kv
    rw [List.any_cons, Bool.or_eq_false_iff] at h
    simp only [List.cons_append, jsLookup, h.1, Bool.false_eq_true, if_false]
    exact ih h.2

theorem jsLookup_setEntry_self (l : List (String × JVal)) (k : String) (v : JVal) :
    jsLookup (setEntry l k v) k = v := by
  unfold setEntry
  by_cases h : l.any (fun p => p.1 == k)
  · rw [if_pos h]
    exact jsLookup_map_replace k v l h
  · rw [if_neg h]
    exact jsLookup_append_not_found k v l (Bool.eq_false_iff.mpr h)

theorem jsLookup_map_replace_ne (k : String) (v : JVal) (key : String)
    (hb : (k == key) = false) :
    ∀ (l : List (String × JVal)),
      jsLookup (l.map (fun p => if p.1 == k then (k, v) else p)) key = jsLookup l key := by
  intro l
  induction l with
  | nil => rfl
  | cons kv rest ih =>
    obtain ⟨k0, v0⟩ := kv
    rw [List.map_cons]
    by_cases h0 : (k0 == k) = true
    · rw [show (if ((k0, v0).1 == k) = true then (k, v) else (k0, v0)) = (k, v) from if_pos h0]
      have hk : k0 = k := eq_of_beq h0
      subst hk
      simp only [jsLookup, hb, Bool.false_eq_true, if_false]
      exact ih
    · rw [show (if ((k0, v0).1 == k) = true then (k, v) else (k0, v0)) = (k0, v0) from if_neg h0]
      by_cases h1 : (k0 == key) = true
      · simp only [jsLookup, h1, if_true]
      · simp only [jsLookup, h1, Bool.false_eq_true, if_false]
        exact ih

theorem jsLookup_append_singleton_ne (k : String) (v : JVal) (key : String)
    (hb : (k == key) = false) :
    ∀ (l : List (String × JVal)), jsLookup (l ++ [(k, v)]) key = jsLookup l key := by
  intro l
  induction l with
  | nil => simp only [List.nil_append, jsLookup, hb, Bool.false_eq_true, if_false]
  | cons kv rest ih =>
    obtain ⟨k0, v0⟩ := kv
    by_cases h1 : (k0 == key) = true
    · simp only [List.cons_append, jsLookup, h1, if_true]
    · simp only [List.cons_append, jsLookup, h1, Bool.false_eq_true, if_false]
      exact ih

theorem jsLookup_setEntry_ne (l : List (String × JVal)) (k : String) (v : JVal)
    (key : String) (hne : key ≠ k) : jsLookup (setEntry l k v) key = jsLookup l key := by
  have hb : (k == key) = false := by
    rw [beq_eq_false_iff_ne]
    exact fun hc => hne hc.symm
  unfold setEntry
  by_cases h : l.any (fun p => p.1 == k)
  · rw [if_pos h]
    exact jsLookup_map_replace_ne k v key hb l
  · rw [if_neg h]
    exact jsLookup_append_singleton_ne k v key hb l

/-- C6 counterexample: with the configured time-field name `ts` and the
record `{ts: "2023-01-01T00:00:00Z"}` the claim requires the timestamp of
the Point to be set from `record[timeField]`; the mapper reads only the
literal `_time` key, so the timestamp of the produced Point stays unset and
differs from the claimed one. -/
theorem claim6_counterexample :
    (createPoint "m" [] [] [("ts", .jstr "2023-01-01T00:00:00Z")]).timestamp = none ∧
    timestampClaimed "ts" [("ts", .jstr "2023-01-01T00:00:00Z")] =
      some (.jstr "2023-01-01T00:00:00Z") ∧
    (none : Option JVal) ≠ some (.jstr "2023-01-01T00:00:00Z") :=
  ⟨rfl, rfl, fun h => Option.noConfusion h⟩

/-- C6 amended: the mapper reads the literal `_time` key (the configured
time-field name is never consulted), sets the Point timestamp exactly when
that value is truthy and leaves it unset otherwise; and the returned record
is the input with only its `_time` entry resolved — to the explicit truthy
`_time` value, else to the freshly generated current time — all other
entries reading unchanged. -/
theorem claim6_amended (measurement : String) (tagFields fieldFields : List String)
    (item : List (String × JVal)) (now : String) :
    (createPoint measurement tagFields fieldFields item).timestamp =
        (if jsTruthy (jsLookup item "_time") then some (jsLookup item "_time") else none) ∧
    jsLookup (createResult now item) "_time" =
        (if jsTruthy (jsLookup item "_time") then jsLookup item "_time" else .jstr now) ∧
    (∀ key, key ≠ "_time" → jsLookup (createResult now item) key = jsLookup item key) := by
  refine ⟨?_, ?_, ?_⟩
  · unfold createPoint
    rw [applyRemaining_timestamp, applyFieldFields_timestamp, applyTagFields_timestamp]
    by_cases h : jsTruthy (jsLookup item "_time") <;> simp [h]
  · unfold createResult
    rw [jsLookup_setEntry_self]
  · intro key hkey
    unfold createResult
    exact jsLookup_setEntry_ne item "_time" _ key hkey

/-- Witness for C6 amended at the record `{a: 1}` with current time `NOW`. -/
theorem claim6_amended_witness :
    ("a" : String) ≠ "_time" ∧
    jsLookup (createResult "NOW" [("a", .jnum 1)]) "a" = jsLookup [("a", .jnum 1)] "a" ∧
    (createPoint "m" [] [] [("a", .jnum 1)]).timestamp =
      (if jsTruthy (jsLookup [("a", .jnum 1)] "_time") then
        some (jsLookup [("a", .jnum 1)] "_time") else none) :=
  ⟨by decide, (claim6_amended "m" [] [] [("a", .jnum 1)] "NOW").2.2 "a" (by decide),
    (claim6_amended "m" [] [] [("a", .jnum 1)] "NOW").1⟩

/-- C7 counterexample: with the overlapping allowlists `tagFields = ["x"]`,
`fieldFields = ["x"]` and the record `{x: 1}`, the produced Point carries
the key `x` both as a tag and as a field, violating the claimed
no-key-in-both invariant. -/
theorem claim7_counterexample :
    ("x" ∈ (createPoint "m" ["x"] ["x"] [("x", .jnum 1)]).tags.map Prod.fst) ∧
    ("x" ∈ (createPoint "m" ["x"] ["x"] [("x", .jnum 1)]).fields.map Prod.fst) := by
  constructor <;> decide

/-- C7 amended: every tag value of every produced Point is a string (the
`String(...)` coercion) for every configuration and record; and whenever
the tag allowlist and the field allowlist are disjoint, no key appears in
both the tag set and the field set of the Point. -/
theorem claim7_amended (measurement : String) (tagFields fieldFields : List String)
    (item : List (String × JVal)) :
    (∀ q ∈ (createPoint measurement tagFields fieldFields item).tags, ∃ s, q.2 = .jstr s) ∧
    ((∀ x ∈ tagFields, x ∉ fieldFields) →
      ∀ k, k ∈ (createPoint measurement tagFields fieldFields item).tags.map Prod.fst →
        k ∉ (createPoint measurement tagFields fieldFields item).fields.map Prod.fst) := by
  have htags : ∀ q ∈ (createPoint measurement tagFields fieldFields item).tags,
      q.1 ∈ tagFields ∧ ∃ s, q.2 = .jstr s := by
    intro q hq
    unfold createPoint at hq
    rw [applyRemaining_tags, applyFieldFields_tags] at hq
    rcases applyTagFields_tags_sub item tagFields _ q hq with h | h
    · revert h
      by_cases ht : jsTruthy (jsLookup item "_time") <;> simp [ht]
    · exact h
  have hfields : ∀ q ∈ (createPoint measurement tagFields fieldFields item).fields,
      q.1 ∈ fieldFields ∨ tagFields.contains q.1 = false := by
    intro q hq
    unfold createPoint at hq
    rcases applyRemaining_fields_sub tagFields fieldFields item _ q hq with h | h
    · rcases applyFieldFields_fields_sub item fieldFields _ q h with h2 | h2
      · rw [applyTagFields_fields] at h2
        revert h2
        by_cases ht : jsTruthy (jsLookup item "_time") <;> simp [ht]
      · exact Or.inl h2
    · exact Or.inr h
  constructor
  · intro q hq
    exact (htags q hq).2
  · intro hdisj k hktag hkfield
    rcases List.mem_map.mp hktag with ⟨q, hq, hq1⟩
    rcases List.mem_map.mp hkfield with ⟨r, hr, hr1⟩
    have hkt : k ∈ tagFields := hq1 ▸ (htags q hq).1
    rcases hfields r hr with h | h
    · exact hdisj k hkt (hr1 ▸ h)
    · rw [hr1] at h
      exact absurd hkt (by simpa using h)

/-- Witness for C7 amended at disjoint allowlists. -/
theorem claim7_amended_witness :
    (∀ x ∈ ["device"], x ∉ ["temperature"]) ∧
    ∀ k, k ∈ (createPoint "m" ["device"] ["temperature"] [("device", .jnum 7)]).tags.map Prod.fst →
      k ∉ (createPoint "m" ["device"] ["temperature"] [("device", .jnum 7)]).fields.map Prod.fst :=
  ⟨by decide,
    (claim7_amended "m" ["device"] ["temperature"] [("device", .jnum 7)]).2 (by decide)⟩
